import Mathlib

/-
Verification development for the Apple MakerNote decoder
(`wheresmy/utils/apple_makernote.py`).

Bytes are modelled as `List Nat` (each element a byte value 0..255);
character strings are modelled as lists of Unicode code points.
Machine reads are explicit base-256 arithmetic.  Fallible operations
return `Option` / `Except`.  Python's `re.finditer` on a literal
pattern (leftmost, non-overlapping) is modelled by `reFindAux`.
-/

/-! ## Byte-level readers -/

/-- Big-endian 16-bit read at index `i` (out-of-range bytes default to 0;
all uses in the development are bounds-guarded as in the source). -/
def u16be (l : List Nat) (i : Nat) : Nat :=
  l.getD i 0 * 256 + l.getD (i+1) 0

/-- Little-endian 16-bit read at index `i`. -/
def u16le (l : List Nat) (i : Nat) : Nat :=
  l.getD i 0 + l.getD (i+1) 0 * 256

/-- Big-endian 32-bit read at index `i`. -/
def u32be (l : List Nat) (i : Nat) : Nat :=
  ((l.getD i 0 * 256 + l.getD (i+1) 0) * 256 + l.getD (i+2) 0) * 256 + l.getD (i+3) 0

/-- Little-endian 32-bit read at index `i`. -/
def u32le (l : List Nat) (i : Nat) : Nat :=
  l.getD i 0 + (l.getD (i+1) 0 + (l.getD (i+2) 0 + l.getD (i+3) 0 * 256) * 256) * 256

/-- Endianness-dispatching 16-bit read. -/
def u16 (big : Bool) (l : List Nat) (i : Nat) : Nat :=
  if big then u16be l i else u16le l i

/-- Endianness-dispatching 32-bit read. -/
def u32 (big : Bool) (l : List Nat) (i : Nat) : Nat :=
  if big then u32be l i else u32le l i

/-- `struct.unpack` of an exactly-2-byte slice: fails (raises) when the
slice `l[i:i+2]` is short. -/
def unpack16 (big : Bool) (l : List Nat) (i : Nat) : Option Nat :=
  if i + 2 ≤ l.length then some (u16 big l i) else none

/-- `struct.unpack` of an exactly-4-byte slice. -/
def unpack32 (big : Bool) (l : List Nat) (i : Nat) : Option Nat :=
  if i + 4 ≤ l.length then some (u32 big l i) else none

/-- `struct.pack` of a 16-bit value, big-endian. -/
def packBE2 (v : Nat) : List Nat := [v / 256 % 256, v % 256]

/-- `struct.pack` of a 16-bit value, little-endian. -/
def packLE2 (v : Nat) : List Nat := [v % 256, v / 256 % 256]

/-! ## `re.finditer` on a literal byte pattern

Leftmost matches, non-overlapping: after a match at `i` the scan resumes
at `i + pat.length`.  Fuel `s.length + 1` always suffices since the
cursor advances on every step for a nonempty pattern. -/

def reFindAux (pat s : List Nat) : Nat → Nat → List Nat
  | _, 0 => []
  | i, fuel+1 =>
    if i + pat.length ≤ s.length then
      if pat.isPrefixOf (s.drop i) then i :: reFindAux pat s (i + pat.length) fuel
      else reFindAux pat s (i+1) fuel
    else []

/-- All non-overlapping match positions of literal pattern `pat` in `s`. -/
def reFindIter (pat s : List Nat) : List Nat :=
  reFindAux pat s 0 (s.length + 1)

/-- `re.search`: position of the first match, if any. -/
def reSearch (pat s : List Nat) : Option Nat :=
  (reFindIter pat s).head?

/-! ## Byte normalizer (lines 18-53 of the source)

Input is either true bytes or a character string.  `bytes.decode('latin1')`
maps each byte to the equal code point and never fails; `str.encode('latin1')`
fails (UnicodeEncodeError) on any code point ≥ 256. -/

/-- Input to `decode_apple_makernote`: raw bytes or a character string. -/
inductive MNInput where
  | bytes (l : List Nat)
  | str (cps : List Nat)
deriving DecidableEq, Repr

/-- Value of an ASCII hexadecimal digit. -/
def hexVal (c : Nat) : Option Nat :=
  if 48 ≤ c ∧ c ≤ 57 then some (c - 48)
  else if 97 ≤ c ∧ c ≤ 102 then some (c - 87)
  else if 65 ≤ c ∧ c ≤ 70 then some (c - 55)
  else none

/-- ASCII whitespace accepted by Python's `int` parsing. -/
def isPySpace (c : Nat) : Bool :=
  c = 32 || c = 9 || c = 10 || c = 13 || c = 11 || c = 12

/-- Python `int(two_bytes, 16)` on a 2-character slice: two hex digits,
or one hex digit with a leading/trailing space or a leading sign;
anything else raises ValueError (modelled as `none`). -/
def pyIntHex2 (a b : Nat) : Option Int :=
  match hexVal a, hexVal b with
  | some x, some y => some (16 * x + y)
  | _, _ =>
    if isPySpace a then (hexVal b).map (fun v => (v : Int))
    else if isPySpace b then (hexVal a).map (fun v => (v : Int))
    else if a = 43 then (hexVal b).map (fun v => (v : Int))
    else if a = 45 then (hexVal b).map (fun v => -(v : Int))
    else none

/-- `cleaned_str.replace(b'\\x', b'%')`: replace each (non-overlapping,
left-to-right) occurrence of backslash (92) followed by `x` (120) by `%` (37). -/
def replBackslashX : List Nat → List Nat
  | 92 :: 120 :: rest => 37 :: replBackslashX rest
  | c :: rest => c :: replBackslashX rest
  | [] => []

/-- The `%`-escape decoding loop (lines 36-53): at a `%` with at least two
following bytes, try to parse them as hex and emit the byte; on failure
(ValueError, including a negative value at `bytes([v])`) copy one byte. -/
def percentDecode : List Nat → List Nat
  | 37 :: a :: b :: rest =>
    match pyIntHex2 a b with
    | some v => if 0 ≤ v then v.toNat :: percentDecode rest else 37 :: percentDecode (a :: b :: rest)
    | none => 37 :: percentDecode (a :: b :: rest)
  | c :: rest => c :: percentDecode rest
  | [] => []

/-- Strip surrounding quote markers (lines 26-31): a leading and trailing
`"` pair, or a Python bytes-repr `b'...'` / `b"..."` wrapper. -/
def stripQuotes (s : List Nat) : List Nat :=
  if s.head? = some 34 ∧ s.getLast? = some 34 then (s.drop 1).dropLast
  else if s.take 2 = [98, 39] ∧ s.getLast? = some 39 then (s.drop 2).dropLast
  else if s.take 2 = [98, 34] ∧ s.getLast? = some 34 then (s.drop 2).dropLast
  else s

/-- The byte normalizer (lines 18-53).  A bytes input is first decoded with
latin-1 (total, code point = byte value); the resulting character string is
quote-stripped and then re-encoded with latin-1, which RAISES
UnicodeEncodeError on any code point ≥ 256; finally the backslash-hex
escapes are decoded. -/
def normalizeInput (inp : MNInput) : Except String (List Nat) :=
  let cps := match inp with
    | .bytes l => l
    | .str s => s
  let stripped := stripQuotes cps
  if stripped.all (fun c => c < 256) then
    .ok (percentDecode (replBackslashX stripped))
  else
    .error "UnicodeEncodeError"

/-! ## IEEE-754 single-precision decoding (struct.unpack '>f')

Only decoding and exact order comparisons against integer bounds are
needed; no float arithmetic is performed by the source. -/

/-- Bit fields of a 4-byte big-endian IEEE-754 single. -/
structure F32 where
  sign : Bool
  expo : Nat
  mant : Nat
deriving DecidableEq, Repr

/-- Decode the 4 bytes at `i` (big-endian) into sign / exponent / mantissa. -/
def readF32 (s : List Nat) (i : Nat) : F32 :=
  let b0 := s.getD i 0
  let b1 := s.getD (i+1) 0
  let b2 := s.getD (i+2) 0
  let b3 := s.getD (i+3) 0
  { sign := 128 ≤ b0
    expo := (b0 % 128) * 2 + b1 / 128
    mant := (b1 % 128) * 65536 + b2 * 256 + b3 }

/-- Exact comparison `a * 2^ea ≤ b * 2^eb` over integers. -/
def mulPow2Le (a : Int) (ea : Int) (b : Int) (eb : Int) : Bool :=
  if eb ≤ ea then a * 2 ^ (ea - eb).toNat ≤ b else a ≤ b * 2 ^ (eb - ea).toNat

/-- Signed significand of a finite float: `±mant` (subnormal) or
`±(2^23 + mant)` (normal). -/
def f32Sig (f : F32) : Int :=
  let m : Int := if f.expo = 0 then f.mant else 2 ^ 23 + f.mant
  if f.sign then -m else m

/-- Binary exponent of a finite float (value = f32Sig · 2^f32Exp). -/
def f32Exp (f : F32) : Int :=
  (if f.expo = 0 then (1 : Int) else f.expo) - 150

/-- Python `lo <= v <= hi` for the decoded float `v` and integer bounds:
exact mathematical comparison; NaN and ±infinity (expo = 255) never satisfy
the double inequality. -/
def inRangeF (lo hi : Int) (f : F32) : Bool :=
  if f.expo = 255 then false
  else mulPow2Le lo 0 (f32Sig f) (f32Exp f) && mulPow2Le (f32Sig f) (f32Exp f) hi 0

/-! ## Apple-epoch year computation

`datetime(2001,1,1) + timedelta(seconds=val)` — the year is determined by
`val / 86400` whole days walked through Gregorian year lengths from 2001. -/

/-- Length in days of a Gregorian year. -/
def daysInYear (y : Nat) : Nat :=
  if y % 4 = 0 ∧ (y % 100 ≠ 0 ∨ y % 400 = 0) then 366 else 365

/-- Walk whole days forward from the start of year `y` (fuel-bounded;
fuel 200 covers every value below the source's 800000000 cutoff). -/
def yearFromDays : Nat → Nat → Nat → Nat
  | 0, y, _ => y
  | fuel+1, y, d => if d < daysInYear y then y else yearFromDays fuel (y+1) (d - daysInYear y)

/-- Year of the instant `2001-01-01T00:00:00Z + v seconds`. -/
def appleYear (v : Nat) : Nat :=
  yearFromDays 200 2001 (v / 86400)

/-! ## Timestamp-candidate scan around a binary plist (lines 110-135) -/

/-- A timestamp candidate: window offset and raw 32-bit value. -/
structure TsCand where
  pos : Nat
  val : Nat
deriving DecidableEq, Repr

/-- The qualification test on one 32-bit value (lines 121-125):
`300000000 < val < 800000000` and year strictly between 2010 and 2030. -/
def tsOK (v : Nat) : Bool :=
  300000000 < v && v < 800000000 && 2010 < appleYear v && appleYear v < 2030

/-- Candidates contributed by the window starting at `i`: big-endian first,
then little-endian, provided four bytes remain (line 114). -/
def tsAt (s : List Nat) (i : Nat) : List TsCand :=
  if i + 4 ≤ s.length then
    (if tsOK (u32be s i) then [⟨i, u32be s i⟩] else []) ++
    (if tsOK (u32le s i) then [⟨i, u32le s i⟩] else [])
  else []

/-- The window loop `for i in range(pos, min(len, pos+100))`, unrolled as a
fuel recursion starting at `i`. -/
def tsAux (s : List Nat) : Nat → Nat → List TsCand
  | _, 0 => []
  | i, fuel+1 => tsAt s i ++ tsAux s (i+1) fuel

/-- All timestamp candidates of the plist at `pos`, before the cap. -/
def tsPre (s : List Nat) (pos : Nat) : List TsCand :=
  tsAux s pos (min s.length (pos + 100) - pos)

/-- Retained timestamp candidates: `timestamp_candidates[:3]` (line 135). -/
def tsCandsAt (s : List Nat) (pos : Nat) : List TsCand :=
  (tsPre s pos).take 3

/-! ## Readable-string preview (lines 432-448) -/

/-- One step of `extract_readable_strings`: fold state is
(emitted, current run). -/
def readableStep (acc : List Nat × List Nat) (b : Nat) : List Nat × List Nat :=
  if 32 ≤ b ∧ b ≤ 126 then (acc.1, acc.2 ++ [b])
  else if acc.2 ≠ [] then
    (if 3 ≤ acc.2.length then (acc.1 ++ acc.2 ++ [32], []) else (acc.1, []))
  else acc

/-- Drop leading and trailing spaces (`str.strip`; only the space
character 32 can occur here, printable range being 32..126). -/
def stripSpaces (l : List Nat) : List Nat :=
  ((l.dropWhile (fun c => c = 32)).reverse.dropWhile (fun c => c = 32)).reverse

/-- `extract_readable_strings`: printable-ASCII runs of length ≥ 3,
space-joined, stripped. -/
def extractReadable (l : List Nat) : List Nat :=
  let acc := l.foldl readableStep ([], [])
  stripSpaces (if acc.2 ≠ [] ∧ 3 ≤ acc.2.length then acc.1 ++ acc.2 else acc.1)

/-! ## Per-plist structure (lines 85-152; the optional key lookup of
lines 92-99 is metadata not modelled by any claim and is omitted) -/

/-- An identified binary-plist structure: position, content preview and
retained timestamp candidates. -/
structure PlistInfo where
  pos : Nat
  preview : List Nat
  cands : List TsCand
deriving DecidableEq, Repr

/-- `bplist00` signature bytes. -/
def bplistSig : List Nat := [98, 112, 108, 105, 115, 116, 48, 48]

/-- Build the structure recorded for the plist match at `pos`:
preview over `after_bytes[:50]`, candidates capped at 3. -/
def mkPlist (s : List Nat) (pos : Nat) : PlistInfo :=
  { pos := pos
    preview := extractReadable ((s.drop pos).take 50)
    cands := tsCandsAt s pos }

/-! ## Camera-setting scans (lines 166-227) -/

/-- The fixed ISO table (line 167). -/
def isoValues : List Nat := [100, 200, 400, 800, 1600, 3200, 6400]

/-- ISO scan (lines 170-183): for each table value, big-endian then
little-endian 2-byte pattern, all finditer positions, qualified by a
preceding zero byte; records (value, position). -/
def isoMatches (s : List Nat) : List (Nat × Nat) :=
  isoValues.flatMap fun v =>
    [packBE2 v, packLE2 v].flatMap fun pat =>
      (reFindIter pat s).filterMap fun p =>
        if 0 < p ∧ s.getD (p-1) 256 = 0 then some (v, p) else none

/-- `struct.pack('>f', x)` images of the aperture table
1.8 / 2.0 / 2.2 / 2.8 / 4.0 / 5.6 / 8.0, paired with 10·value. -/
def apertureTable : List (Nat × List Nat) :=
  [ (18, [0x3F, 0xE6, 0x66, 0x66])
  , (20, [0x40, 0x00, 0x00, 0x00])
  , (22, [0x40, 0x0C, 0xCC, 0xCD])
  , (28, [0x40, 0x33, 0x33, 0x33])
  , (40, [0x40, 0x80, 0x00, 0x00])
  , (56, [0x40, 0xB3, 0x33, 0x33])
  , (80, [0x41, 0x00, 0x00, 0x00]) ]

/-- `struct.pack('>f', x)` images of the focal-length table
4.0 / 6.0 / 7.5 / 9.0 / 12.0 / 14.0, paired with 10·value. -/
def focalTable : List (Nat × List Nat) :=
  [ (40, [0x40, 0x80, 0x00, 0x00])
  , (60, [0x40, 0xC0, 0x00, 0x00])
  , (75, [0x40, 0xF0, 0x00, 0x00])
  , (90, [0x41, 0x10, 0x00, 0x00])
  , (120, [0x41, 0x40, 0x00, 0x00])
  , (140, [0x41, 0x60, 0x00, 0x00]) ]

/-- Unqualified 4-byte float scans (lines 194-205 and 214-224): for each
table value, big-endian then little-endian pattern, all finditer positions;
records (10·value, position). -/
def floatMatches (table : List (Nat × List Nat)) (s : List Nat) : List (Nat × Nat) :=
  table.flatMap fun v =>
    [v.2, v.2.reverse].flatMap fun pat =>
      (reFindIter pat s).map fun p => (v.1, p)

/-! ## Coordinate scan (lines 229-248) -/

/-- A coordinate candidate: offset and the two decoded floats. -/
structure Coord where
  pos : Nat
  v1 : F32
  v2 : F32
deriving DecidableEq, Repr

/-- The test at window `i`: two consecutive big-endian floats with
val1 ∈ [-90, 90] and val2 ∈ [-180, 180]. -/
def coordAt (s : List Nat) (i : Nat) : Option Coord :=
  let f1 := readF32 s i
  let f2 := readF32 s (i+4)
  if inRangeF (-90) 90 f1 && inRangeF (-180) 180 f2 then some ⟨i, f1, f2⟩ else none

/-- The loop `for i in range(len(cleaned_bytes) - 8)`, as a fuel recursion. -/
def coordAux (s : List Nat) : Nat → Nat → List Coord
  | _, 0 => []
  | i, fuel+1 =>
    match coordAt s i with
    | some c => c :: coordAux s (i+1) fuel
    | none => coordAux s (i+1) fuel

/-- All coordinate candidates before the cap.  Note the loop bound:
`range(len - 8)` scans offsets `0 .. len-9` and misses the final window
at offset `len - 8`. -/
def coordPre (s : List Nat) : List Coord :=
  coordAux s 0 (s.length - 8)

/-- Retained coordinate candidates: `coord_matches[:3]` (line 248). -/
def coordMatches (s : List Nat) : List Coord :=
  (coordPre s).take 3

/-! ## Sub-directory parser `parse_tiff_ifd` (lines 252-328) -/

/-- One 12-byte directory entry (tag names / type names are decorative
lookups and are not modelled). -/
structure TiffEntry where
  tag : Nat
  typeId : Nat
  count : Nat
  valueOffset : Nat
  value : Option Nat
deriving DecidableEq, Repr

/-- Parse one 12-byte entry record (loop body, lines 303-322): for SHORT
(type 3) with count 1 the stored value is `value_offset & 0xFFFF`; for LONG
(type 4) with count 1 it is `value_offset`. -/
def parseEntry (big : Bool) (ed : List Nat) : TiffEntry :=
  let ty := u16 big ed 2
  let cnt := u32 big ed 4
  let vo := u32 big ed 8
  { tag := u16 big ed 0
    typeId := ty
    count := cnt
    valueOffset := vo
    value :=
      if ty = 3 then (if cnt = 1 then some (vo &&& 0xFFFF) else none)
      else if ty = 4 then (if cnt = 1 then some vo else none)
      else none }

/-- A 12-byte entry record with every field's bytes swapped: the 2-byte
tag and type fields, the 4-byte count field and the 4-byte value field
each reversed. -/
def swap12 (e : List Nat) : List Nat :=
  [ e.getD 1 0, e.getD 0 0, e.getD 3 0, e.getD 2 0
  , e.getD 7 0, e.getD 6 0, e.getD 5 0, e.getD 4 0
  , e.getD 11 0, e.getD 10 0, e.getD 9 0, e.getD 8 0 ]

/-- The parsed directory. `numEntries` is set only when the entry count
field was read (offset within `len - 2`). -/
structure TiffDir where
  bigEndian : Bool
  magic : Nat
  ifdOffset : Nat
  numEntries : Option Nat
  entries : List TiffEntry
deriving DecidableEq, Repr

/-- Result of `parse_tiff_ifd`: an error dictionary or a directory. -/
inductive TiffResult where
  | error (msg : String)
  | ok (d : TiffDir)
deriving DecidableEq, Repr

/-- `parse_tiff_ifd` (lines 252-328).  Header checks produce error results;
an unreadable `struct.unpack` slice would be caught by the enclosing
`except` and produce the "Exception parsing" error; the entry table is
decoded only when it fits entirely (line 297), each entry additionally
guarded by a full-slice check (line 302). -/
def parse_tiff_ifd (data : List Nat) (big : Bool) : TiffResult :=
  if data.length < 8 then .error "Insufficient data for TIFF IFD"
  else if ¬((data.take 2 = [77, 77] ∧ big) ∨ (data.take 2 = [73, 73] ∧ ¬big)) then
    .error "Invalid TIFF header"
  else
    match unpack16 big data 2 with
    | none => .error "Exception parsing TIFF structure"
    | some magic =>
      if magic ≠ 42 ∧ magic ≠ 0x2A then .error ("Invalid TIFF magic number: " ++ toString magic)
      else
        match unpack32 big data 4 with
        | none => .error "Exception parsing TIFF structure"
        | some ifdOffset =>
          if ifdOffset < data.length - 2 then
            match unpack16 big data ifdOffset with
            | none => .error "Exception parsing TIFF structure"
            | some n =>
              let entries :=
                if ifdOffset + 2 + n * 12 ≤ data.length then
                  (List.range n).filterMap fun k =>
                    let ed := (data.drop (ifdOffset + 2 + k * 12)).take 12
                    if ed.length = 12 then some (parseEntry big ed) else none
                else []
              .ok ⟨big, magic, ifdOffset, some n, entries⟩
          else .ok ⟨big, magic, ifdOffset, none, []⟩

/-! ## Whole-decode assembly (lines 56-250) -/

/-- `Apple iOS\x00\x00` signature bytes (11 bytes). -/
def appleSig : List Nat := [65, 112, 112, 108, 101, 32, 105, 79, 83, 0, 0]

/-- The raw result dictionary, restricted to the fields the claims are
about (UUID extraction, lines 154-161, is not touched by any claim and is
omitted).  Absent dictionary keys are `none` / `[]`. -/
structure RawResult where
  rawLen : Nat
  headerPos : Option Nat
  tiffByteOrder : Option Bool
  tiffStructure : Option TiffResult
  plists : List PlistInfo
  isoVals : List (Nat × Nat)
  apertureVals : List (Nat × Nat)
  focalVals : List (Nat × Nat)
  coords : List Coord
deriving DecidableEq, Repr

/-- TIFF dispatch after the signature (lines 62-78): the two bytes right
after the first signature occurrence select the byte order; anything else
(or fewer than two remaining bytes, or no signature) leaves both TIFF
fields absent. -/
def tiffFields (s : List Nat) : Option Bool × Option TiffResult :=
  match reSearch appleSig s with
  | none => (none, none)
  | some p =>
    let tp := p + 11
    if tp + 2 ≤ s.length then
      if (s.drop tp).take 2 = [77, 77] then (some true, some (parse_tiff_ifd (s.drop tp) true))
      else if (s.drop tp).take 2 = [73, 73] then (some false, some (parse_tiff_ifd (s.drop tp) false))
      else (none, none)
    else (none, none)

/-- Decode of the normalized (cleaned) bytes: all scans of lines 62-250. -/
def decodeRaw (s : List Nat) : RawResult :=
  { rawLen := s.length
    headerPos := reSearch appleSig s
    tiffByteOrder := (tiffFields s).1
    tiffStructure := (tiffFields s).2
    plists := (reFindIter bplistSig s).map (mkPlist s)
    isoVals := isoMatches s
    apertureVals := floatMatches apertureTable s
    focalVals := floatMatches focalTable s
    coords := coordMatches s }

/-- `decode_apple_makernote`: normalize, then decode.  A normalizer
failure is an uncaught exception of the Python function. -/
def decode_apple_makernote (inp : MNInput) : Except String RawResult :=
  (normalizeInput inp).map decodeRaw

/-! ## Clean summary `create_clean_json` (lines 450-544), restricted to
the candidate-selection fields the claims are about -/

/-- A property-list entry of the clean summary.  The source serializes the
selected candidate's formatted date string; the selected candidate record
itself is kept here. -/
structure CleanPlist where
  content : Option (List Nat)
  timestamp : Option TsCand
deriving DecidableEq, Repr

/-- Clean-summary projection of one plist structure (lines 494-509):
content when the preview is nonempty, and the FIRST retained timestamp
candidate. -/
def cleanPlistInfo (st : PlistInfo) : CleanPlist :=
  { content := if st.preview ≠ [] then some st.preview else none
    timestamp := st.cands.head? }

/-- The clean summary fields selected from candidate lists. -/
structure CleanResult where
  propertyLists : List CleanPlist
  iso : Option Nat
  aperture : Option Nat
  focal : Option Nat
  location : Option Coord
deriving DecidableEq, Repr

/-- `create_clean_json` (lines 450-544): each camera-setting field takes
the FIRST element of its candidate list; the location takes the FIRST
coordinate candidate; each plist timestamp takes the FIRST retained
candidate.  Empty plist projections are dropped (line 511). -/
def create_clean_json (d : RawResult) : CleanResult :=
  { propertyLists :=
      d.plists.filterMap fun st =>
        let pi := cleanPlistInfo st
        if pi.content.isSome ∨ pi.timestamp.isSome then some pi else none
    iso := (d.isoVals.head?).map Prod.fst
    aperture := (d.apertureVals.head?).map Prod.fst
    focal := (d.focalVals.head?).map Prod.fst
    location := d.coords.head? }

/-! # Lemmas and theorems -/

/-! ## Generic list facts -/

/-- Taking a positive number of elements preserves the head. -/
theorem head?_take_succ {α : Type} (n : Nat) (l : List α) : (l.take (n+1)).head? = l.head? := by
  cases l <;> rfl

/-- Members of a take are members. -/
theorem mem_of_take {α : Type} {n : Nat} {l : List α} {a : α} (h : a ∈ l.take n) : a ∈ l :=
  List.Sublist.mem h (List.take_sublist n l)

/-- `isPrefixOf` agrees with the prefix relation. -/
theorem isPrefixOfIff {l₁ l₂ : List Nat} : l₁.isPrefixOf l₂ = true ↔ l₁ <+: l₂ := by
  exact List.isPrefixOf_iff_prefix

/-- A prefix is no longer than the list. -/
theorem prefixOf_len_le {pat l : List Nat} (h : pat.isPrefixOf l = true) : pat.length ≤ l.length :=
  (isPrefixOfIff.mp h).length_le

/-- Two-byte patterns: `isPrefixOf` at a drop is exactly two indexed reads. -/
theorem prefixOf2_iff (a b : Nat) (l : List Nat) :
    ([a,b].isPrefixOf l = true) ↔ (l[0]? = some a ∧ l[1]? = some b) := by
  match l with
  | [] => simp [List.isPrefixOf]
  | [x] => simp [List.isPrefixOf]
  | x :: y :: t =>
    simp [List.isPrefixOf, and_assoc]
    constructor
    · rintro ⟨rfl, rfl⟩; exact ⟨rfl, rfl⟩
    · rintro ⟨rfl, rfl⟩; exact ⟨rfl, rfl⟩

/-- Two-byte pattern match at offset `p`, phrased over the whole list. -/
theorem prefixOf2_drop_iff (a b p : Nat) (s : List Nat) :
    ([a,b].isPrefixOf (s.drop p) = true) ↔ (s[p]? = some a ∧ s[p+1]? = some b) := by
  rw [prefixOf2_iff]
  constructor
  · rintro ⟨h0, h1⟩
    rw [List.getElem?_drop] at h0 h1
    simpa using And.intro h0 h1
  · rintro ⟨h0, h1⟩
    rw [List.getElem?_drop, List.getElem?_drop]
    simpa using And.intro h0 h1

/-! ## `reFindAux` facts -/

/-- Soundness: every reported position is at least the cursor, carries a
genuine match, and the match lies inside the buffer. -/
theorem reFindAux_sound (pat s : List Nat) :
    ∀ fuel i, ∀ p ∈ reFindAux pat s i fuel,
      i ≤ p ∧ pat.isPrefixOf (s.drop p) = true ∧ p + pat.length ≤ s.length := by
  intro fuel
  induction fuel with
  | zero => intro i p hp; simp [reFindAux] at hp
  | succ fuel ih =>
    intro i p hp
    rw [reFindAux] at hp
    by_cases hle : i + pat.length ≤ s.length
    · rw [if_pos hle] at hp
      by_cases hpre : pat.isPrefixOf (s.drop i) = true
      · rw [if_pos hpre] at hp
        rcases List.mem_cons.mp hp with rfl | hp
        · exact ⟨Nat.le_refl _, hpre, hle⟩
        · have h := ih _ p hp
          exact ⟨by omega, h.2⟩
      · rw [if_neg hpre] at hp
        have h := ih _ p hp
        exact ⟨by omega, h.2⟩
    · rw [if_neg hle] at hp
      simp at hp

/-- The head of the scan result is at most any match position at or after
the cursor, provided the fuel is adequate. -/
theorem reFindAux_first (pat s : List Nat) (hp : 0 < pat.length) :
    ∀ fuel i q, s.length + 1 ≤ fuel + i → i ≤ q → pat.isPrefixOf (s.drop q) = true →
      ∃ p, (reFindAux pat s i fuel).head? = some p ∧ p ≤ q := by
  intro fuel
  induction fuel with
  | zero =>
    intro i q hf hiq hq
    exfalso
    have hlen := prefixOf_len_le hq
    rw [List.length_drop] at hlen
    omega
  | succ fuel ih =>
    intro i q hf hiq hq
    have hqlen : q + pat.length ≤ s.length := by
      have hlen := prefixOf_len_le hq
      rw [List.length_drop] at hlen
      omega
    rw [reFindAux]
    by_cases hle : i + pat.length ≤ s.length
    · rw [if_pos hle]
      by_cases hpre : pat.isPrefixOf (s.drop i) = true
      · rw [if_pos hpre]
        exact ⟨i, rfl, hiq⟩
      · have hne : i ≠ q := by
          intro h; rw [h] at hpre; exact hpre hq
        rw [if_neg hpre]
        exact ih (i+1) q (by omega) (by omega) hq
    · exfalso; omega

/-- Completeness for two-byte patterns with distinct bytes: such a pattern
cannot overlap itself, so the non-overlapping scan reports every match. -/
theorem find2_complete (a b : Nat) (s : List Nat) (hab : a ≠ b) :
    ∀ fuel i q, s.length + 1 ≤ fuel + i → i ≤ q →
      s[q]? = some a → s[q+1]? = some b → q ∈ reFindAux [a,b] s i fuel := by
  intro fuel
  induction fuel with
  | zero =>
    intro i q hf hiq ha _
    exfalso
    have := (List.getElem?_eq_some.1 ha).1
    omega
  | succ fuel ih =>
    intro i q hf hiq ha hb
    have hq2 : q + 2 ≤ s.length := by
      have := (List.getElem?_eq_some.1 hb).1
      omega
    rw [reFindAux]
    by_cases hle : i + [a,b].length ≤ s.length
    · rw [if_pos hle]
      by_cases hpre : [a,b].isPrefixOf (s.drop i) = true
      · rw [if_pos hpre]
        rcases Nat.lt_or_ge i q with hlt | hge
        · have hne1 : i + 1 ≠ q := by
            intro h
            have hmi := (prefixOf2_drop_iff a b i s).mp hpre
            rw [← h] at ha
            rw [hmi.2] at ha
            exact hab (Option.some.inj ha).symm
          apply List.mem_cons.mpr
          right
          exact ih (i + [a,b].length) q (by simp; omega) (by simp; omega) ha hb
        · have : i = q := by omega
          subst this
          exact List.mem_cons_self i _
      · rw [if_neg hpre]
        have hne : i ≠ q := by
          intro h
          subst h
          exact hpre ((prefixOf2_drop_iff a b i s).mpr ⟨ha, hb⟩)
        exact ih (i + 1) q (by omega) (by omega) ha hb
    · exfalso
      simp at hle
      omega

/-! ## Coordinate-scan facts -/

/-- A coordinate candidate produced at window `i` records offset `i`. -/
theorem coordAt_pos {s : List Nat} {i : Nat} {c : Coord} (h : coordAt s i = some c) : c.pos = i := by
  simp only [coordAt] at h
  split at h
  · cases h; rfl
  · cases h

/-- Characterization of one coordinate window test. -/
theorem coordAt_eq_some {s : List Nat} {i : Nat} {c : Coord} :
    coordAt s i = some c ↔
      (c = ⟨i, readF32 s i, readF32 s (i+4)⟩ ∧
       inRangeF (-90) 90 (readF32 s i) = true ∧ inRangeF (-180) 180 (readF32 s (i+4)) = true) := by
  simp only [coordAt]
  split
  · rename_i hb
    rw [Bool.and_eq_true] at hb
    constructor
    · intro h; cases h; exact ⟨rfl, hb.1, hb.2⟩
    · rintro ⟨rfl, -, -⟩; rfl
  · rename_i hb
    rw [Bool.and_eq_true] at hb
    constructor
    · intro h; cases h
    · rintro ⟨rfl, h1, h2⟩; exact absurd ⟨h1, h2⟩ hb

/-- Membership in the coordinate scan from cursor `i` with given fuel. -/
theorem coordAux_mem (s : List Nat) :
    ∀ fuel i c, c ∈ coordAux s i fuel ↔ ∃ j, i ≤ j ∧ j < i + fuel ∧ coordAt s j = some c := by
  intro fuel
  induction fuel with
  | zero =>
    intro i c
    simp only [coordAux, List.not_mem_nil, false_iff]
    rintro ⟨j, h1, h2, -⟩
    omega
  | succ fuel ih =>
    intro i c
    rw [coordAux]
    cases hc : coordAt s i with
    | some c0 =>
      constructor
      · intro h
        rcases List.mem_cons.mp h with rfl | h
        · exact ⟨i, Nat.le_refl _, by omega, hc⟩
        · obtain ⟨j, h1, h2, h3⟩ := (ih (i+1) c).mp h
          exact ⟨j, by omega, by omega, h3⟩
      · rintro ⟨j, h1, h2, h3⟩
        rcases Nat.eq_or_lt_of_le h1 with rfl | hlt
        · rw [hc] at h3
          cases h3
          exact List.mem_cons_self _ _
        · exact List.mem_cons.mpr (Or.inr ((ih (i+1) c).mpr ⟨j, by omega, by omega, h3⟩))
    | none =>
      rw [ih (i+1) c]
      constructor
      · rintro ⟨j, h1, h2, h3⟩
        exact ⟨j, by omega, by omega, h3⟩
      · rintro ⟨j, h1, h2, h3⟩
        rcases Nat.eq_or_lt_of_le h1 with rfl | hlt
        · rw [hc] at h3; cases h3
        · exact ⟨j, by omega, by omega, h3⟩

/-- Every candidate in the scan from cursor `i` lies at offset ≥ `i`. -/
theorem coordAux_pos_lb {s : List Nat} {fuel i : Nat} {c : Coord}
    (h : c ∈ coordAux s i fuel) : i ≤ c.pos := by
  obtain ⟨j, h1, -, h3⟩ := (coordAux_mem s fuel i c).mp h
  rw [coordAt_pos h3]
  exact h1

/-- The first coordinate candidate has minimal offset among all scanned
candidates. -/
theorem coordAux_head_min (s : List Nat) :
    ∀ fuel i h, (coordAux s i fuel).head? = some h →
      ∀ c ∈ coordAux s i fuel, h.pos ≤ c.pos := by
  intro fuel
  induction fuel with
  | zero => intro i h hh; simp [coordAux] at hh
  | succ fuel ih =>
    intro i h hh c hmem
    rw [coordAux] at hh hmem
    cases hc : coordAt s i with
    | some c0 =>
      rw [hc] at hh hmem
      have hh' : c0 = h := by
        simpa using hh
      subst hh'
      have h0 := coordAt_pos hc
      rcases List.mem_cons.mp hmem with rfl | hm
      · exact Nat.le_refl _
      · have h1 := coordAux_pos_lb hm
        omega
    | none =>
      rw [hc] at hh hmem
      exact ih (i+1) h hh c hmem

/-- The coordinate scan reports candidates in ascending offset order. -/
theorem coordAux_pairwise (s : List Nat) :
    ∀ fuel i, (coordAux s i fuel).Pairwise (fun a b => a.pos ≤ b.pos) := by
  intro fuel
  induction fuel with
  | zero => intro i; simp [coordAux]
  | succ fuel ih =>
    intro i
    rw [coordAux]
    cases hc : coordAt s i with
    | some c0 =>
      refine List.Pairwise.cons ?_ (ih (i+1))
      intro c hm
      rw [coordAt_pos hc]
      have := coordAux_pos_lb hm
      omega
    | none => exact ih (i+1)

/-! ## Timestamp-scan facts -/

/-- Characterization of the candidates contributed by window `i`. -/
theorem tsAt_mem {s : List Nat} {i : Nat} {c : TsCand} :
    c ∈ tsAt s i ↔
      i + 4 ≤ s.length ∧ c.pos = i ∧ (c.val = u32be s i ∨ c.val = u32le s i) ∧ tsOK c.val = true := by
  obtain ⟨p, v⟩ := c
  simp only [tsAt]
  by_cases hlen : i + 4 ≤ s.length
  · rw [if_pos hlen]
    rw [List.mem_append]
    constructor
    · intro h
      rcases h with h | h
      · by_cases ht : tsOK (u32be s i) = true
        · rw [if_pos ht] at h
          simp only [List.mem_singleton, TsCand.mk.injEq] at h
          obtain ⟨rfl, rfl⟩ := h
          exact ⟨hlen, rfl, Or.inl rfl, ht⟩
        · rw [if_neg ht] at h
          simp at h
      · by_cases ht : tsOK (u32le s i) = true
        · rw [if_pos ht] at h
          simp only [List.mem_singleton, TsCand.mk.injEq] at h
          obtain ⟨rfl, rfl⟩ := h
          exact ⟨hlen, rfl, Or.inr rfl, ht⟩
        · rw [if_neg ht] at h
          simp at h
    · rintro ⟨-, rfl, hv, hok⟩
      rcases hv with rfl | rfl
      · exact Or.inl (by rw [if_pos hok]; simp)
      · exact Or.inr (by rw [if_pos hok]; simp)
  · rw [if_neg hlen]
    simp only [List.not_mem_nil, false_iff]
    rintro ⟨h, -⟩
    exact hlen h

/-- A candidate contributed by window `i` records offset `i`. -/
theorem tsAt_pos {s : List Nat} {i : Nat} {c : TsCand} (h : c ∈ tsAt s i) : c.pos = i :=
  (tsAt_mem.mp h).2.1

/-- Membership in the timestamp scan from cursor `i` with given fuel. -/
theorem tsAux_mem (s : List Nat) :
    ∀ fuel i c, c ∈ tsAux s i fuel ↔ ∃ j, i ≤ j ∧ j < i + fuel ∧ c ∈ tsAt s j := by
  intro fuel
  induction fuel with
  | zero =>
    intro i c
    simp only [tsAux, List.not_mem_nil, false_iff]
    rintro ⟨j, h1, h2, -⟩
    omega
  | succ fuel ih =>
    intro i c
    rw [tsAux]
    rw [List.mem_append]
    constructor
    · intro h
      rcases h with h | h
      · exact ⟨i, Nat.le_refl _, by omega, h⟩
      · obtain ⟨j, h1, h2, h3⟩ := (ih (i+1) c).mp h
        exact ⟨j, by omega, by omega, h3⟩
    · rintro ⟨j, h1, h2, h3⟩
      rcases Nat.eq_or_lt_of_le h1 with rfl | hlt
      · exact Or.inl h3
      · exact Or.inr ((ih (i+1) c).mpr ⟨j, by omega, by omega, h3⟩)

/-- Every candidate in the timestamp scan from cursor `i` lies at offset ≥ `i`. -/
theorem tsAux_pos_lb {s : List Nat} {fuel i : Nat} {c : TsCand}
    (h : c ∈ tsAux s i fuel) : i ≤ c.pos := by
  obtain ⟨j, h1, -, h3⟩ := (tsAux_mem s fuel i c).mp h
  rw [tsAt_pos h3]
  exact h1

/-- The first timestamp candidate has minimal offset among all scanned
candidates. -/
theorem tsAux_head_min (s : List Nat) :
    ∀ fuel i h, (tsAux s i fuel).head? = some h →
      ∀ c ∈ tsAux s i fuel, h.pos ≤ c.pos := by
  intro fuel
  induction fuel with
  | zero => intro i h hh; simp [tsAux] at hh
  | succ fuel ih =>
    intro i h hh c hmem
    rw [tsAux] at hh hmem
    cases hblock : tsAt s i with
    | nil =>
      rw [hblock] at hh hmem
      simp only [List.nil_append] at hh hmem
      exact ih (i+1) h hh c hmem
    | cons x xs =>
      rw [hblock] at hh hmem
      have hh' : x = h := by
        simpa using hh
      subst hh'
      have hx : x.pos = i := tsAt_pos (by rw [hblock]; exact List.mem_cons_self _ _)
      rcases List.mem_append.mp hmem with hm | hm
      · have hc := tsAt_pos (show c ∈ tsAt s i by rw [hblock]; exact hm)
        omega
      · have := tsAux_pos_lb hm
        omega

/-- The timestamp scan reports candidates in ascending offset order. -/
theorem tsAux_pairwise (s : List Nat) :
    ∀ fuel i, (tsAux s i fuel).Pairwise (fun a b => a.pos ≤ b.pos) := by
  intro fuel
  induction fuel with
  | zero => intro i; simp [tsAux]
  | succ fuel ih =>
    intro i
    rw [tsAux]
    rw [List.pairwise_append]
    refine ⟨?_, ih (i+1), ?_⟩
    · apply List.pairwise_of_forall_mem_list
      intro a ha b hb
      rw [tsAt_pos ha, tsAt_pos hb]
    · intro a ha b hb
      rw [tsAt_pos ha]
      have := tsAux_pos_lb hb
      omega

/-! ## Claim C1 -/

/-- Claim C1 is refuted on ISO candidates: on the blob
`00 00 C8 00 00 64`, ISO 200 occurs (big-endian, zero-prefixed) at offset
1 and ISO 100 at offset 4, yet the clean summary reports ISO 100 — the
candidate list is ordered by table value, not by offset, and its head has
offset 4 while a retained candidate sits at offset 1. -/
theorem C1_counterexample :
    (create_clean_json (decodeRaw [0, 0, 200, 0, 0, 100])).iso = some 100 ∧
    (decodeRaw [0, 0, 200, 0, 0, 100]).isoVals = [(100, 4), (200, 1), (200, 2)] ∧
    (200, 1) ∈ (decodeRaw [0, 0, 200, 0, 0, 100]).isoVals ∧
    (decodeRaw [0, 0, 200, 0, 0, 100]).isoVals.head? = some (100, 4) ∧
    1 < 4 := by decide

/-- Claim C1 (amended): the first-candidate selection of
`create_clean_json` picks the minimal-offset retained candidate for the
coordinate field and for each property-list timestamp (those scans emit
candidates in ascending offset order); for ISO, aperture and focal length
the selected candidate is merely the head of a list ordered by table
value, then byte order, then offset, and need not have minimal offset. -/
theorem C1_first_candidate_policy (s : List Nat) :
    (∀ rep, (create_clean_json (decodeRaw s)).location = some rep →
      ∀ c ∈ (decodeRaw s).coords, rep.pos ≤ c.pos) ∧
    (∀ st ∈ (decodeRaw s).plists, ∀ rep, (cleanPlistInfo st).timestamp = some rep →
      ∀ c ∈ st.cands, rep.pos ≤ c.pos) := by
  constructor
  · intro rep hrep c hc
    have hloc : (create_clean_json (decodeRaw s)).location = (coordPre s).head? := by
      show (coordMatches s).head? = (coordPre s).head?
      rw [coordMatches]
      exact head?_take_succ 2 _
    rw [hloc] at hrep
    have hc' : c ∈ coordPre s := mem_of_take (show c ∈ (coordPre s).take 3 from hc)
    exact coordAux_head_min s _ 0 rep hrep c hc'
  · intro st hst rep hrep c hc
    simp only [decodeRaw] at hst
    obtain ⟨p, -, rfl⟩ := List.mem_map.mp hst
    have hts : (cleanPlistInfo (mkPlist s p)).timestamp = (tsPre s p).head? := by
      show (tsCandsAt s p).head? = (tsPre s p).head?
      rw [tsCandsAt]
      exact head?_take_succ 2 _
    rw [hts] at hrep
    have hc' : c ∈ tsPre s p := mem_of_take (show c ∈ (tsPre s p).take 3 from hc)
    exact tsAux_head_min s _ p rep hrep c hc'

/-- Witness for C1 (amended) on a concrete blob carrying a plist with two
timestamp candidates (offsets 5 and 8) and three coordinate candidates
(offsets 6, 7, 8). -/
theorem C1_first_candidate_policy_witness :
    ((create_clean_json (decodeRaw
        [98,112,108,105,115,116,48,48,23,215,132,0,66,52,0,0,194,186,0,0,0])).location =
      some ⟨6, ⟨false, 96, 3151831⟩, ⟨true, 8, 16948⟩⟩) ∧
    (6 : Nat) ≤ 8 ∧ (5 : Nat) ≤ 8 := by
  refine ⟨by decide, ?_, ?_⟩
  · exact (C1_first_candidate_policy
      [98,112,108,105,115,116,48,48,23,215,132,0,66,52,0,0,194,186,0,0,0]).1
      ⟨6, ⟨false, 96, 3151831⟩, ⟨true, 8, 16948⟩⟩ (by decide)
      ⟨8, ⟨false, 47, 5735424⟩, ⟨false, 132, 3407872⟩⟩ (by decide)
  · exact (C1_first_candidate_policy
      [98,112,108,105,115,116,48,48,23,215,132,0,66,52,0,0,194,186,0,0,0]).2
      (mkPlist [98,112,108,105,115,116,48,48,23,215,132,0,66,52,0,0,194,186,0,0,0] 0)
      (by decide) ⟨5, 389034100⟩ (by decide) ⟨8, 400000000⟩ (by decide)

/-! ## Claim C2 -/

/-- Unfolding of the qualification test on one 32-bit value. -/
theorem tsOK_iff (v : Nat) :
    tsOK v = true ↔
      (300000000 < v ∧ v < 800000000 ∧ 2010 < appleYear v ∧ appleYear v < 2030) := by
  simp [tsOK, Bool.and_eq_true, decide_eq_true_eq, and_assoc]

/-- Claim C2 is refuted: on the blob `bplist00` followed by the bytes
`32 C9 13 00`, the 4-byte window at offset 8 reads (big-endian) as
852038400 seconds, i.e. 2028-01-01, a year strictly between 2010 and
2030 — yet it is not recorded, because the source additionally requires
the raw value to lie strictly below 800000000 (reached in May 2026).
The only recorded candidate of the fragment sits at offset 7. -/
theorem C2_counterexample :
    u32be [98, 112, 108, 105, 115, 116, 48, 48, 50, 201, 19, 0] 8 = 852038400 ∧
    appleYear 852038400 = 2028 ∧ 2010 < 2028 ∧ 2028 < 2030 ∧
    8 + 4 ≤ ([98, 112, 108, 105, 115, 116, 48, 48, 50, 201, 19, 0] : List Nat).length ∧
    reFindIter bplistSig [98, 112, 108, 105, 115, 116, 48, 48, 50, 201, 19, 0] = [0] ∧
    (decodeRaw [98, 112, 108, 105, 115, 116, 48, 48, 50, 201, 19, 0]).plists =
      [⟨0, [98, 112, 108, 105, 115, 116, 48, 48, 50], [⟨7, 331952688⟩]⟩] := by decide

/-- Claim C2 (amended): a 4-byte window after a plist match is recorded
as a timestamp candidate iff its offset lies in `[pos, pos+100)`, the
window fits in the buffer, and its value — read big- or little-endian —
lies strictly between 300000000 and 800000000 AND yields a year strictly
between 2010 and 2030 (the raw-value cutoff excludes dates from May 2026
on, despite the year test reaching 2029); at most 3 candidates are
retained, in ascending offset order. -/
theorem C2_timestamp_window (s : List Nat) (pos : Nat) :
    (∀ c, c ∈ tsPre s pos ↔
      (pos ≤ c.pos ∧ c.pos < pos + 100 ∧ c.pos + 4 ≤ s.length ∧
       (c.val = u32be s c.pos ∨ c.val = u32le s c.pos) ∧
       300000000 < c.val ∧ c.val < 800000000 ∧
       2010 < appleYear c.val ∧ appleYear c.val < 2030)) ∧
    (tsCandsAt s pos).Sublist (tsPre s pos) ∧
    (tsCandsAt s pos).length ≤ 3 ∧
    (tsCandsAt s pos).Pairwise (fun a b => a.pos ≤ b.pos) := by
  refine ⟨?_, List.take_sublist 3 _, ?_, ?_⟩
  · intro c
    rw [tsPre, tsAux_mem]
    constructor
    · rintro ⟨j, h1, h2, h3⟩
      obtain ⟨hlen, hpos, hval, hok⟩ := tsAt_mem.mp h3
      obtain ⟨ho1, ho2, ho3, ho4⟩ := (tsOK_iff c.val).mp hok
      subst hpos
      exact ⟨h1, by omega, hlen, hval, ho1, ho2, ho3, ho4⟩
    · rintro ⟨h1, h2, h3, h4, h5, h6, h7, h8⟩
      refine ⟨c.pos, h1, by omega, tsAt_mem.mpr ⟨h3, rfl, h4, (tsOK_iff c.val).mpr ⟨h5, h6, h7, h8⟩⟩⟩
  · rw [tsCandsAt, List.length_take]
    omega
  · exact List.Pairwise.sublist (List.take_sublist 3 _) (tsAux_pairwise s _ pos)

/-! ## Claim C7 -/

/-- Claim C7 is refuted: the ISO candidate list is not capped at 3.  On
the 12-byte blob `00 00 64` repeated four times the decoder reports seven
ISO candidates (four big-endian and three little-endian occurrences of
100, all zero-prefixed). -/
theorem C7_counterexample :
    (decodeRaw [0, 0, 100, 0, 0, 100, 0, 0, 100, 0, 0, 100]).isoVals =
      [(100, 1), (100, 4), (100, 7), (100, 10), (100, 2), (100, 5), (100, 8)] ∧
    (decodeRaw [0, 0, 100, 0, 0, 100, 0, 0, 100, 0, 0, 100]).isoVals.length = 7 ∧
    3 < 7 := by decide

/-- Claim C7 (amended): the timestamp candidates of every identified
plist structure and the coordinate candidates are capped at 3; the ISO,
aperture and focal-length lists retain all matches and can exceed 3. -/
theorem C7_capped_lists (s : List Nat) :
    (decodeRaw s).coords.length ≤ 3 ∧
    ∀ st ∈ (decodeRaw s).plists, st.cands.length ≤ 3 := by
  constructor
  · show (coordMatches s).length ≤ 3
    rw [coordMatches, List.length_take]
    omega
  · intro st hst
    simp only [decodeRaw] at hst
    obtain ⟨p, -, rfl⟩ := List.mem_map.mp hst
    show (tsCandsAt s p).length ≤ 3
    rw [tsCandsAt, List.length_take]
    omega

/-- Witness for C7 (amended) at a concrete blob with one plist. -/
theorem C7_capped_lists_witness :
    (mkPlist [98, 112, 108, 105, 115, 116, 48, 48] 0).cands.length ≤ 3 :=
  (C7_capped_lists [98, 112, 108, 105, 115, 116, 48, 48]).2
    (mkPlist [98, 112, 108, 105, 115, 116, 48, 48] 0) (by decide)

/-! ## Claim C9 -/

/-- Claim C9 is refuted at the buffer boundary: on the 8-byte blob whose
two big-endian floats are exactly 45.0 and -93.0 (a qualifying pair), no
coordinate candidate is reported, because the loop
`for i in range(len - 8)` never scans the window ending exactly at the
buffer end. -/
theorem C9_counterexample :
    inRangeF (-90) 90 (readF32 [66, 52, 0, 0, 194, 186, 0, 0] 0) = true ∧
    inRangeF (-180) 180 (readF32 [66, 52, 0, 0, 194, 186, 0, 0] 4) = true ∧
    0 + 8 ≤ ([66, 52, 0, 0, 194, 186, 0, 0] : List Nat).length ∧
    coordPre [66, 52, 0, 0, 194, 186, 0, 0] = [] ∧
    (decodeRaw [66, 52, 0, 0, 194, 186, 0, 0]).coords = [] ∧
    inRangeF (-90) 90 (readF32 [67, 72, 0, 0, 65, 32, 0, 0, 0] 0) = false ∧
    coordPre [67, 72, 0, 0, 65, 32, 0, 0, 0] = [] := by decide

/-- Claim C9 (amended): a coordinate candidate at offset `i` is reported
iff `i + 8 < len` (strictly — the window ending exactly at the buffer end
is never scanned) and the two consecutive big-endian floats at `i` and
`i+4` satisfy val1 ∈ [-90, 90] and val2 ∈ [-180, 180], with all
comparisons exact; at most 3 candidates are retained, in ascending offset
order.  In particular adjacent floats (45.0, -93.0) qualify at any
scanned offset and (200.0, 10.0) never qualify. -/
theorem C9_coordinate_scan (s : List Nat) :
    (∀ c, c ∈ coordPre s ↔
      (c.pos + 8 < s.length ∧ c = ⟨c.pos, readF32 s c.pos, readF32 s (c.pos + 4)⟩ ∧
       inRangeF (-90) 90 (readF32 s c.pos) = true ∧
       inRangeF (-180) 180 (readF32 s (c.pos + 4)) = true)) ∧
    (decodeRaw s).coords.Sublist (coordPre s) ∧
    (decodeRaw s).coords.length ≤ 3 ∧
    (decodeRaw s).coords.Pairwise (fun a b => a.pos ≤ b.pos) := by
  refine ⟨?_, List.take_sublist 3 _, ?_, ?_⟩
  · intro c
    rw [coordPre, coordAux_mem]
    constructor
    · rintro ⟨j, -, h2, h3⟩
      have hpos : c.pos = j := coordAt_pos h3
      obtain ⟨hc, h4, h5⟩ := coordAt_eq_some.mp h3
      subst hpos
      exact ⟨by omega, hc, h4, h5⟩
    · rintro ⟨h1, hc, h4, h5⟩
      exact ⟨c.pos, Nat.zero_le _, by omega, coordAt_eq_some.mpr ⟨hc, h4, h5⟩⟩
  · show (coordMatches s).length ≤ 3
    rw [coordMatches, List.length_take]
    omega
  · exact List.Pairwise.sublist (List.take_sublist 3 _) (coordAux_pairwise s _ 0)

/-! ## Claim C3 -/

/-- Claim C3: with a valid 8-byte header (marker matching the endianness
flag, magic 42), an IFD offset at or beyond the buffer yields a Directory
with zero entries and no error; and when the declared entry table (2-byte
count plus 12 bytes per entry) would extend beyond the buffer the entry
loop is skipped, returning the entries decoded so far — none — again with
no error. -/
theorem C3_directory_degrades (data : List Nat) (big : Bool) (off : Nat)
    (h8 : 8 ≤ data.length)
    (hmk : (data.take 2 = [77, 77] ∧ big = true) ∨ (data.take 2 = [73, 73] ∧ ¬(big = true)))
    (hmg : u16 big data 2 = 42)
    (hoff : u32 big data 4 = off) :
    (data.length ≤ off → parse_tiff_ifd data big = .ok ⟨big, 42, off, none, []⟩) ∧
    (∀ n, off < data.length - 2 → u16 big data off = n → data.length < off + 2 + n * 12 →
      parse_tiff_ifd data big = .ok ⟨big, 42, off, some n, []⟩) := by
  have hnl : ¬(data.length < 8) := by omega
  have hu2 : unpack16 big data 2 = some 42 := by
    rw [unpack16, if_pos (by omega : 2 + 2 ≤ data.length), hmg]
  have hu4 : unpack32 big data 4 = some off := by
    rw [unpack32, if_pos (by omega : 4 + 4 ≤ data.length), hoff]
  constructor
  · intro hbeyond
    simp only [parse_tiff_ifd]
    rw [if_neg hnl, if_neg (not_not_intro hmk), hu2]
    dsimp only
    rw [if_neg (by simp : ¬((42 : Nat) ≠ 42 ∧ (42 : Nat) ≠ 42)), hu4]
    dsimp only
    rw [if_neg (by omega : ¬(off < data.length - 2))]
  · intro n hofflt hn htable
    have huoff : unpack16 big data off = some n := by
      rw [unpack16, if_pos (by omega : off + 2 ≤ data.length), hn]
    simp only [parse_tiff_ifd]
    rw [if_neg hnl, if_neg (not_not_intro hmk), hu2]
    dsimp only
    rw [if_neg (by simp : ¬((42 : Nat) ≠ 42 ∧ (42 : Nat) ≠ 42)), hu4]
    dsimp only
    rw [if_pos hofflt, huoff]
    dsimp only
    rw [if_neg (by omega : ¬(off + 2 + n * 12 ≤ data.length))]

/-- Witness for C3 at two concrete buffers: a header whose IFD offset 99
lies beyond the 8-byte buffer, and a directory declaring 2 entries with
room for only 1. -/
theorem C3_directory_degrades_witness :
    parse_tiff_ifd [77, 77, 0, 42, 0, 0, 0, 99] true = .ok ⟨true, 42, 99, none, []⟩ ∧
    parse_tiff_ifd [77, 77, 0, 42, 0, 0, 0, 8, 0, 2, 0, 1, 0, 3, 0, 0, 0, 1, 0, 0, 0, 7] true =
      .ok ⟨true, 42, 8, some 2, []⟩ := by
  constructor
  · exact (C3_directory_degrades [77, 77, 0, 42, 0, 0, 0, 99] true 99 (by decide)
      (Or.inl ⟨by decide, rfl⟩) (by decide) (by decide)).1 (by decide)
  · exact (C3_directory_degrades [77, 77, 0, 42, 0, 0, 0, 8, 0, 2, 0, 1, 0, 3, 0, 0, 0, 1, 0, 0, 0, 7]
      true 8 (by decide) (Or.inl ⟨by decide, rfl⟩) (by decide) (by decide)).2 2
      (by decide) (by decide) (by decide)

/-! ## Claim C5 -/

/-- Exhaustive shape of `parse_tiff_ifd`: one of the three malformed-header
errors, or a directory whose entry list never exceeds the declared count;
in particular the internal `struct.unpack` calls never fail (all reads are
bounds-guarded), so the exception branch is unreachable: the parser never
reads past the buffer. -/
theorem parse_tiff_cases (data : List Nat) (big : Bool) :
    parse_tiff_ifd data big = .error "Insufficient data for TIFF IFD" ∨
    parse_tiff_ifd data big = .error "Invalid TIFF header" ∨
    (∃ m : Nat, parse_tiff_ifd data big = .error ("Invalid TIFF magic number: " ++ toString m)) ∨
    (∃ d, parse_tiff_ifd data big = .ok d ∧
      d.entries.length ≤ d.numEntries.getD 0 ∧ (d.numEntries = none → d.entries = [])) := by
  by_cases h8 : data.length < 8
  · left
    simp only [parse_tiff_ifd]
    rw [if_pos h8]
  · by_cases hmk : (data.take 2 = [77, 77] ∧ big = true) ∨ (data.take 2 = [73, 73] ∧ ¬(big = true))
    · have hu2 : unpack16 big data 2 = some (u16 big data 2) := by
        rw [unpack16, if_pos (by omega : 2 + 2 ≤ data.length)]
      by_cases hm : u16 big data 2 ≠ 42 ∧ u16 big data 2 ≠ 42
      · right; right; left
        refine ⟨u16 big data 2, ?_⟩
        simp only [parse_tiff_ifd]
        rw [if_neg h8, if_neg (not_not_intro hmk), hu2]
        dsimp only
        rw [if_pos hm]
      · have hu4 : unpack32 big data 4 = some (u32 big data 4) := by
          rw [unpack32, if_pos (by omega : 4 + 4 ≤ data.length)]
        by_cases hofflt : u32 big data 4 < data.length - 2
        · have huoff : unpack16 big data (u32 big data 4) = some (u16 big data (u32 big data 4)) := by
            rw [unpack16, if_pos (by omega : u32 big data 4 + 2 ≤ data.length)]
          right; right; right
          simp only [parse_tiff_ifd]
          rw [if_neg h8, if_neg (not_not_intro hmk), hu2]
          dsimp only
          rw [if_neg hm, hu4]
          dsimp only
          rw [if_pos hofflt, huoff]
          dsimp only
          refine ⟨_, rfl, ?_, ?_⟩
          · show (if _ ≤ data.length then _ else []).length ≤ (some _).getD 0
            split
            · refine le_trans (List.length_filterMap_le _ _) ?_
              rw [List.length_range]
              exact Nat.le_refl _
            · exact Nat.zero_le _
          · exact fun h => absurd h (by simp)
        · right; right; right
          simp only [parse_tiff_ifd]
          rw [if_neg h8, if_neg (not_not_intro hmk), hu2]
          dsimp only
          rw [if_neg hm, hu4]
          dsimp only
          rw [if_neg hofflt]
          exact ⟨_, rfl, Nat.le_refl 0, fun _ => rfl⟩
    · right; left
      simp only [parse_tiff_ifd]
      rw [if_neg h8, if_pos hmk]

/-- Claim C5 (amended): for EVERY input buffer (in particular every prefix
of a buffer containing a valid directory) the sub-directory parser returns
a value — one of the three malformed-header errors (never the unreachable
exception branch, i.e. it never reads past the buffer) or a Directory
holding AT MOST as many entries as declared (exactly the declared count
when the whole table fits, so a full prefix need not have strictly
fewer). -/
theorem C5_truncation_safety (data : List Nat) (big : Bool) :
    ((∃ d, parse_tiff_ifd data big = .ok d) ∨
     parse_tiff_ifd data big = .error "Insufficient data for TIFF IFD" ∨
     parse_tiff_ifd data big = .error "Invalid TIFF header" ∨
     (∃ m : Nat, parse_tiff_ifd data big = .error ("Invalid TIFF magic number: " ++ toString m))) ∧
    (∀ d, parse_tiff_ifd data big = .ok d →
      d.entries.length ≤ d.numEntries.getD 0 ∧ (d.numEntries = none → d.entries = [])) := by
  rcases parse_tiff_cases data big with h | h | ⟨m, h⟩ | ⟨d, h, h1, h2⟩
  · exact ⟨Or.inr (Or.inl h), by intro d hd; rw [h] at hd; cases hd⟩
  · exact ⟨Or.inr (Or.inr (Or.inl h)), by intro d hd; rw [h] at hd; cases hd⟩
  · exact ⟨Or.inr (Or.inr (Or.inr ⟨m, h⟩)), by intro d hd; rw [h] at hd; cases hd⟩
  · refine ⟨Or.inl ⟨d, h⟩, ?_⟩
    intro d' hd
    rw [h] at hd
    injection hd with hdd
    subst hdd
    exact ⟨h1, h2⟩

/-- Claim C5 is refuted on the "fewer entries than declared" clause: the
23-byte sequence below contains a valid one-entry directory; its 22-byte
proper prefix still contains the complete entry table, so the parser
returns a Directory with exactly the declared single entry — neither a
`MalformedDirectory` error nor fewer entries than declared. -/
theorem C5_counterexample :
    ([77, 77, 0, 42, 0, 0, 0, 8, 0, 1, 0, 1, 0, 3, 0, 0, 0, 1, 0, 0, 0, 7] : List Nat).isPrefixOf
      [77, 77, 0, 42, 0, 0, 0, 8, 0, 1, 0, 1, 0, 3, 0, 0, 0, 1, 0, 0, 0, 7, 0] = true ∧
    parse_tiff_ifd [77, 77, 0, 42, 0, 0, 0, 8, 0, 1, 0, 1, 0, 3, 0, 0, 0, 1, 0, 0, 0, 7, 0] true =
      .ok ⟨true, 42, 8, some 1, [⟨1, 3, 1, 7, some 7⟩]⟩ ∧
    parse_tiff_ifd [77, 77, 0, 42, 0, 0, 0, 8, 0, 1, 0, 1, 0, 3, 0, 0, 0, 1, 0, 0, 0, 7] true =
      .ok ⟨true, 42, 8, some 1, [⟨1, 3, 1, 7, some 7⟩]⟩ ∧
    (1 : Nat) = 1 := by decide

/-- Witness for C5 (amended) at the 22-byte truncated directory. -/
theorem C5_truncation_safety_witness :
    (⟨true, 42, 8, some 1, [⟨1, 3, 1, 7, some 7⟩]⟩ : TiffDir).entries.length ≤
      (⟨true, 42, 8, some 1, [⟨1, 3, 1, 7, some 7⟩]⟩ : TiffDir).numEntries.getD 0 :=
  ((C5_truncation_safety [77, 77, 0, 42, 0, 0, 0, 8, 0, 1, 0, 1, 0, 3, 0, 0, 0, 1, 0, 0, 0, 7]
      true).2 ⟨true, 42, 8, some 1, [⟨1, 3, 1, 7, some 7⟩]⟩ (by decide)).1

/-! ## Claim C4 -/

/-- Reduction of the endianness dispatch. -/
theorem u16_true_eq (l : List Nat) (i : Nat) : u16 true l i = u16be l i := rfl

/-- Reduction of the endianness dispatch. -/
theorem u16_false_eq (l : List Nat) (i : Nat) : u16 false l i = u16le l i := rfl

/-- Reduction of the endianness dispatch. -/
theorem u32_true_eq (l : List Nat) (i : Nat) : u32 true l i = u32be l i := rfl

/-- Reduction of the endianness dispatch. -/
theorem u32_false_eq (l : List Nat) (i : Nat) : u32 false l i = u32le l i := rfl

/-- Byte-swapping the tag field commutes with the endianness flip. -/
theorem swap12_u16_0 (e : List Nat) : u16le (swap12 e) 0 = u16be e 0 := by
  show e.getD 1 0 + e.getD 0 0 * 256 = e.getD 0 0 * 256 + e.getD 1 0
  ring

/-- Byte-swapping the type field commutes with the endianness flip. -/
theorem swap12_u16_2 (e : List Nat) : u16le (swap12 e) 2 = u16be e 2 := by
  show e.getD 3 0 + e.getD 2 0 * 256 = e.getD 2 0 * 256 + e.getD 3 0
  ring

/-- Byte-swapping the count field commutes with the endianness flip. -/
theorem swap12_u32_4 (e : List Nat) : u32le (swap12 e) 4 = u32be e 4 := by
  show e.getD 7 0 + (e.getD 6 0 + (e.getD 5 0 + e.getD 4 0 * 256) * 256) * 256 =
    ((e.getD 4 0 * 256 + e.getD 5 0) * 256 + e.getD 6 0) * 256 + e.getD 7 0
  ring

/-- Byte-swapping the value field commutes with the endianness flip. -/
theorem swap12_u32_8 (e : List Nat) : u32le (swap12 e) 8 = u32be e 8 := by
  show e.getD 11 0 + (e.getD 10 0 + (e.getD 9 0 + e.getD 8 0 * 256) * 256) * 256 =
    ((e.getD 8 0 * 256 + e.getD 9 0) * 256 + e.getD 10 0) * 256 + e.getD 11 0
  ring

/-- Claim C4 is refuted for Short entries: the big-endian entry with
tag 1, type 3 (Short), count 1 and value field `00 01 00 00` parses under
"MM" to the value 0, while the big-endian interpretation of the 4-byte
value field is 65536 — the source masks with `& 0xFFFF`, keeping only the
low-order half. -/
theorem C4_counterexample :
    u16be [0, 1, 0, 3, 0, 0, 0, 1, 0, 1, 0, 0] 2 = 3 ∧
    u32be [0, 1, 0, 3, 0, 0, 0, 1, 0, 1, 0, 0] 4 = 1 ∧
    (parseEntry true [0, 1, 0, 3, 0, 0, 0, 1, 0, 1, 0, 0]).value = some 0 ∧
    u32be [0, 1, 0, 3, 0, 0, 0, 1, 0, 1, 0, 0] 8 = 65536 ∧
    (0 : Nat) ≠ 65536 := by decide

/-- Claim C4 (amended): for a Long (type 4) entry with count 1, parsing
under "MM" yields exactly the big-endian interpretation of the 4-byte
value field; for a Short (type 3) entry with count 1 it yields that
interpretation reduced modulo 2^16 (the low-order two bytes); and in all
cases the entry with every field's bytes swapped parses under "II" to the
identical result. -/
theorem C4_byte_order (e : List Nat) :
    (u16be e 2 = 3 → u32be e 4 = 1 → (parseEntry true e).value = some (u32be e 8 % 65536)) ∧
    (u16be e 2 = 4 → u32be e 4 = 1 → (parseEntry true e).value = some (u32be e 8)) ∧
    parseEntry false (swap12 e) = parseEntry true e := by
  refine ⟨?_, ?_, ?_⟩
  · intro ht hc
    have hmask : u32be e 8 &&& 65535 = u32be e 8 % 65536 := by
      have h := Nat.and_pow_two_sub_one_eq_mod (u32be e 8) 16
      norm_num at h
      exact h
    simp only [parseEntry, u16_true_eq, u32_true_eq, ht, hc, if_pos]
    rw [hmask]
  · intro ht hc
    simp only [parseEntry, u16_true_eq, u32_true_eq, ht, hc]
    norm_num
  · simp only [parseEntry, u16_true_eq, u32_true_eq, u16_false_eq, u32_false_eq,
      swap12_u16_0, swap12_u16_2, swap12_u32_4, swap12_u32_8]

/-- Witness for C4 (amended) at concrete Short and Long entries. -/
theorem C4_byte_order_witness :
    (parseEntry true [0, 1, 0, 3, 0, 0, 0, 1, 0, 0, 0, 9]).value =
      some (u32be [0, 1, 0, 3, 0, 0, 0, 1, 0, 0, 0, 9] 8 % 65536) ∧
    (parseEntry true [0, 1, 0, 4, 0, 0, 0, 1, 0, 0, 2, 5]).value =
      some (u32be [0, 1, 0, 4, 0, 0, 0, 1, 0, 0, 2, 5] 8) := by
  constructor
  · exact (C4_byte_order [0, 1, 0, 3, 0, 0, 0, 1, 0, 0, 0, 9]).1 (by decide) (by decide)
  · exact (C4_byte_order [0, 1, 0, 4, 0, 0, 0, 1, 0, 0, 2, 5]).2.1 (by decide) (by decide)

/-! ## Claim C8 -/

/-- Each 2-byte ISO pattern has two distinct bytes, so it cannot overlap
itself and the non-overlapping scan reports every occurrence. -/
theorem isoPat_distinct : ∀ v ∈ isoValues, v / 256 % 256 ≠ v % 256 := by decide

/-- Claim C8: an occurrence at offset `p` of the 2-byte big- or
little-endian encoding of a table ISO value is reported as a potential
ISO value exactly when `p > 0` and the byte immediately preceding the
occurrence is zero. -/
theorem C8_iso_qualification (s : List Nat) (v p : Nat)
    (hv : v ∈ isoValues)
    (hm : (packBE2 v).isPrefixOf (s.drop p) = true ∨ (packLE2 v).isPrefixOf (s.drop p) = true) :
    ((v, p) ∈ isoMatches s ↔ (0 < p ∧ s[p - 1]? = some 0)) := by
  constructor
  · intro h
    simp only [isoMatches, List.mem_flatMap, List.mem_filterMap] at h
    obtain ⟨v', hv', pat, hpat, q, hq, hsome⟩ := h
    split at hsome
    · rename_i hcond
      simp only [Option.some.injEq, Prod.mk.injEq] at hsome
      obtain ⟨rfl, rfl⟩ := hsome
      refine ⟨hcond.1, ?_⟩
      have hgd := hcond.2
      rw [List.getD_eq_getElem?_getD] at hgd
      cases hx : s[q - 1]? with
      | none => rw [hx] at hgd; simp at hgd
      | some x =>
        rw [hx] at hgd
        simp at hgd
        exact congrArg some hgd
    · exact absurd hsome (by simp)
  · rintro ⟨hp0, hprev⟩
    have hgetD : s.getD (p - 1) 256 = 0 := by
      rw [List.getD_eq_getElem?_getD, hprev]
      rfl
    rcases hm with hbe | hle
    · have hab : v / 256 % 256 ≠ v % 256 := isoPat_distinct v hv
      rw [show packBE2 v = [v / 256 % 256, v % 256] from rfl] at hbe
      obtain ⟨ha, hb⟩ := (prefixOf2_drop_iff _ _ p s).mp hbe
      have hfind : p ∈ reFindIter (packBE2 v) s := by
        rw [reFindIter, show packBE2 v = [v / 256 % 256, v % 256] from rfl]
        exact find2_complete _ _ s hab (s.length + 1) 0 p (by omega) (Nat.zero_le p) ha hb
      simp only [isoMatches, List.mem_flatMap, List.mem_filterMap]
      refine ⟨v, hv, packBE2 v, by simp, p, hfind, ?_⟩
      rw [if_pos ⟨hp0, hgetD⟩]
    · have hab : v % 256 ≠ v / 256 % 256 := (isoPat_distinct v hv).symm
      rw [show packLE2 v = [v % 256, v / 256 % 256] from rfl] at hle
      obtain ⟨ha, hb⟩ := (prefixOf2_drop_iff _ _ p s).mp hle
      have hfind : p ∈ reFindIter (packLE2 v) s := by
        rw [reFindIter, show packLE2 v = [v % 256, v / 256 % 256] from rfl]
        exact find2_complete _ _ s hab (s.length + 1) 0 p (by omega) (Nat.zero_le p) ha hb
      simp only [isoMatches, List.mem_flatMap, List.mem_filterMap]
      refine ⟨v, hv, packLE2 v, by simp, p, hfind, ?_⟩
      rw [if_pos ⟨hp0, hgetD⟩]

/-- Witness for C8: value 100 big-endian (`00 64`) at offset 1 of
`00 00 64` is preceded by a zero byte and reported; the same bytes at
offset 1 of `05 00 64` are preceded by 5 and not reported. -/
theorem C8_iso_qualification_witness :
    ((100, 1) ∈ isoMatches [0, 0, 100]) ∧ ¬((100, 1) ∈ isoMatches [5, 0, 100]) := by
  constructor
  · exact (C8_iso_qualification [0, 0, 100] 100 1 (by decide)
      (Or.inl (by decide))).mpr ⟨by decide, by decide⟩
  · intro h
    exact absurd ((C8_iso_qualification [5, 0, 100] 100 1 (by decide)
      (Or.inl (by decide))).mp h).2 (by decide)

/-! ## Claim C10 -/

/-- A successful `re.search` returns the leftmost match. -/
theorem reSearch_some_first (pat s : List Nat) (hp : 0 < pat.length) (p : Nat)
    (h : reSearch pat s = some p) :
    pat.isPrefixOf (s.drop p) = true ∧ ∀ q < p, ¬ pat.isPrefixOf (s.drop q) = true := by
  constructor
  · have hmem : p ∈ reFindIter pat s := List.mem_of_mem_head? (Option.mem_def.mpr h)
    exact (reFindAux_sound pat s _ 0 p hmem).2.1
  · intro q hq hmatch
    obtain ⟨p', hp', hle⟩ := reFindAux_first pat s hp (s.length + 1) 0 q (by omega) (Nat.zero_le q) hmatch
    rw [reSearch, reFindIter] at h
    rw [h] at hp'
    injection hp' with he
    omega

/-- A failed `re.search` means no match anywhere. -/
theorem reSearch_none_no_match (pat s : List Nat) (hp : 0 < pat.length)
    (h : reSearch pat s = none) : ∀ q, ¬ pat.isPrefixOf (s.drop q) = true := by
  intro q hmatch
  obtain ⟨p', hp', -⟩ := reFindAux_first pat s hp (s.length + 1) 0 q (by omega) (Nat.zero_le q) hmatch
  rw [reSearch, reFindIter] at h
  rw [h] at hp'
  cases hp'

/-- Claim C10: the raw output carries the TIFF byte-order and structure
fields exactly when the 11-byte `Apple iOS\x00\x00` signature occurs and
the two bytes immediately after its first occurrence are "MM" or "II";
a blob that begins directly with a valid directory header but lacks the
signature produces no directory output at all, even though the
sub-directory parser itself would accept it. -/
theorem C10_signature_gating :
    (∀ s : List Nat,
      ((decodeRaw s).tiffStructure.isSome ↔
        (∃ p, appleSig.isPrefixOf (s.drop p) = true ∧
          (∀ q < p, ¬ appleSig.isPrefixOf (s.drop q) = true) ∧
          p + 13 ≤ s.length ∧
          ((s.drop (p + 11)).take 2 = [77, 77] ∨ (s.drop (p + 11)).take 2 = [73, 73]))) ∧
      ((decodeRaw s).tiffByteOrder.isSome ↔ (decodeRaw s).tiffStructure.isSome)) ∧
    ((decodeRaw [77, 77, 0, 42, 0, 0, 0, 8, 0, 0]).tiffStructure = none ∧
     (decodeRaw [77, 77, 0, 42, 0, 0, 0, 8, 0, 0]).tiffByteOrder = none ∧
     parse_tiff_ifd [77, 77, 0, 42, 0, 0, 0, 8, 0, 0] true = .ok ⟨true, 42, 8, none, []⟩) := by
  refine ⟨?_, by decide, by decide, by decide⟩
  intro s
  have hTS : (decodeRaw s).tiffStructure = (tiffFields s).2 := rfl
  have hBO : (decodeRaw s).tiffByteOrder = (tiffFields s).1 := rfl
  rw [hTS, hBO]
  cases hsr : reSearch appleSig s with
  | none =>
    have hno := reSearch_none_no_match appleSig s (by decide) hsr
    have hTF : tiffFields s = (none, none) := by
      simp only [tiffFields, hsr]
    rw [hTF]
    refine ⟨⟨fun h => by simp at h, ?_⟩, Iff.rfl⟩
    rintro ⟨p, hmatch, -⟩
    exact absurd hmatch (hno p)
  | some p =>
    obtain ⟨hmatch, hmin⟩ := reSearch_some_first appleSig s (by decide) p hsr
    by_cases hlen2 : p + 11 + 2 ≤ s.length
    · by_cases hMM : (s.drop (p + 11)).take 2 = [77, 77]
      · have hTF : tiffFields s = (some true, some (parse_tiff_ifd (s.drop (p + 11)) true)) := by
          simp only [tiffFields, hsr]
          rw [if_pos hlen2, if_pos hMM]
        rw [hTF]
        exact ⟨⟨fun _ => ⟨p, hmatch, hmin, by omega, Or.inl hMM⟩, fun _ => rfl⟩, Iff.rfl⟩
      · by_cases hII : (s.drop (p + 11)).take 2 = [73, 73]
        · have hTF : tiffFields s = (some false, some (parse_tiff_ifd (s.drop (p + 11)) false)) := by
            simp only [tiffFields, hsr]
            rw [if_pos hlen2, if_neg hMM, if_pos hII]
          rw [hTF]
          exact ⟨⟨fun _ => ⟨p, hmatch, hmin, by omega, Or.inr hII⟩, fun _ => rfl⟩, Iff.rfl⟩
        · have hTF : tiffFields s = (none, none) := by
            simp only [tiffFields, hsr]
            rw [if_pos hlen2, if_neg hMM, if_neg hII]
          rw [hTF]
          refine ⟨⟨fun h => by simp at h, ?_⟩, Iff.rfl⟩
          rintro ⟨q, hm', hmin', hlen', hor⟩
          have hqp : q = p := by
            rcases Nat.lt_trichotomy q p with h | h | h
            · exact absurd hm' (hmin q h)
            · exact h
            · exact absurd hmatch (hmin' p h)
          subst hqp
          rcases hor with h | h
          · exact absurd h hMM
          · exact absurd h hII
    · have hTF : tiffFields s = (none, none) := by
        simp only [tiffFields, hsr]
        rw [if_neg hlen2]
      rw [hTF]
      refine ⟨⟨fun h => by simp at h, ?_⟩, Iff.rfl⟩
      rintro ⟨q, hm', hmin', hlen', -⟩
      have hqp : q = p := by
        rcases Nat.lt_trichotomy q p with h | h | h
        · exact absurd hm' (hmin q h)
        · exact h
        · exact absurd hmatch (hmin' p h)
      exact absurd (by omega : p + 11 + 2 ≤ s.length) hlen2

/-! ## Claim C6 -/

/-- Claim C6 fails on the code: a character-string input containing any
code point above U+00FF — here the single character U+20AC — makes the
normalizer's latin-1 re-encode raise UnicodeEncodeError, so the decode
does not terminate normally; the normalizer is not total on character
strings. -/
theorem C6_normalizer_crash :
    decode_apple_makernote (MNInput.str [8364]) = .error "UnicodeEncodeError" := by
  rfl
